import Mathlib

/-!
Verification of the WhisperX batch transcription scripts
(`v7process_audio.py` and companions): metadata resolution, the model
lifecycle trace, the output-directory naming scheme, turn coalescing,
the plain-text output format, and the batch driver.

Python strings are modelled as lists of characters (`Str`); Python
`str.strip()` is `strip`; comparison "modulo whitespace normalization"
is captured by `words`, the list of maximal whitespace-free blocks.
-/

abbrev Str := List Char

/-- Python `str.strip()`: remove leading and trailing whitespace. -/
def strip (s : Str) : Str :=
  ((s.dropWhile Char.isWhitespace).reverse.dropWhile Char.isWhitespace).reverse

/-- Word splitter with an accumulator; `cur` is the reversed current word. -/
def wordsAux : Str → Str → List Str
  | [], cur => if cur = [] then [] else [cur.reverse]
  | c :: cs, cur =>
    if c.isWhitespace then
      if cur = [] then wordsAux cs [] else cur.reverse :: wordsAux cs []
    else wordsAux cs (c :: cur)

/-- The whitespace-separated words of a string. -/
def words (s : Str) : List Str := wordsAux s []

/-- Join a list of texts with single spaces between consecutive entries. -/
def joinSpace : List Str → Str
  | [] => []
  | [t] => t
  | t :: t' :: ts => t ++ ' ' :: joinSpace (t' :: ts)

theorem wordsAux_ws_cons (c : Char) (hc : c.isWhitespace = true) (b cur : Str) :
    wordsAux (c :: b) cur =
      (if cur = [] then [] else [cur.reverse]) ++ wordsAux b [] := by
  simp only [wordsAux, hc, if_true]
  split <;> simp

theorem wordsAux_cons_neg (c : Char) (hc : ¬ c.isWhitespace = true) (b cur : Str) :
    wordsAux (c :: b) cur = wordsAux b (c :: cur) := by
  simp [wordsAux, hc]

theorem wordsAux_append_ws {w : Char} (hw : w.isWhitespace = true) (a : Str) :
    ∀ cur b : Str, wordsAux (a ++ w :: b) cur = wordsAux a cur ++ wordsAux b [] := by
  induction a with
  | nil =>
    intro cur b
    rw [List.nil_append, wordsAux_ws_cons w hw]
    cases cur <;> simp [wordsAux]
  | cons c a ih =>
    intro cur b
    by_cases hc : c.isWhitespace = true
    · rw [List.cons_append, wordsAux_ws_cons c hc, wordsAux_ws_cons c hc, ih,
        List.append_assoc]
    · rw [List.cons_append, wordsAux_cons_neg c hc, wordsAux_cons_neg c hc, ih]

theorem words_append_ws {w : Char} (hw : w.isWhitespace = true) (a b : Str) :
    words (a ++ w :: b) = words a ++ words b :=
  wordsAux_append_ws hw a [] b

theorem wordsAux_all_ws : ∀ t : Str, (∀ c ∈ t, c.isWhitespace = true) → ∀ cur : Str,
    wordsAux t cur = if cur = [] then [] else [cur.reverse]
  | [], _, cur => by simp [wordsAux]
  | c :: t, ht, cur => by
    rw [wordsAux_ws_cons c (ht c (List.mem_cons_self c t)),
      wordsAux_all_ws t (fun x hx => ht x (List.mem_cons_of_mem c hx)) []]
    simp

theorem wordsAux_append_all_ws (s t : Str) (ht : ∀ c ∈ t, c.isWhitespace = true) :
    ∀ cur : Str, wordsAux (s ++ t) cur = wordsAux s cur := by
  induction s with
  | nil =>
    intro cur
    rw [List.nil_append, wordsAux_all_ws t ht cur]
    cases cur <;> simp [wordsAux]
  | cons c s ih =>
    intro cur
    by_cases hc : c.isWhitespace = true
    · rw [List.cons_append, wordsAux_ws_cons c hc, wordsAux_ws_cons c hc, ih]
    · rw [List.cons_append, wordsAux_cons_neg c hc, wordsAux_cons_neg c hc, ih]

theorem words_append_all_ws (s t : Str) (ht : ∀ c ∈ t, c.isWhitespace = true) :
    words (s ++ t) = words s :=
  wordsAux_append_all_ws s t ht []

theorem words_dropWhile_ws (s : Str) :
    words (s.dropWhile Char.isWhitespace) = words s := by
  induction s with
  | nil => rfl
  | cons c s ih =>
    by_cases hc : c.isWhitespace = true
    · rw [List.dropWhile_cons_of_pos hc, ih]
      unfold words
      rw [wordsAux_ws_cons c hc]
      simp
    · rw [List.dropWhile_cons_of_neg hc]

/-- `strip` never changes the word decomposition. -/
theorem words_strip (s : Str) : words (strip s) = words s := by
  set u : Str := s.dropWhile Char.isWhitespace with hu
  have hdecomp : u = strip s ++ (u.reverse.takeWhile Char.isWhitespace).reverse := by
    have h := List.takeWhile_append_dropWhile (p := Char.isWhitespace) (l := u.reverse)
    have h2 := congrArg List.reverse h
    rw [List.reverse_append, List.reverse_reverse] at h2
    exact h2.symm
  have hws : ∀ c ∈ (u.reverse.takeWhile Char.isWhitespace).reverse, c.isWhitespace = true := by
    intro c hc
    rw [List.mem_reverse] at hc
    exact List.mem_takeWhile_imp hc
  calc words (strip s)
      = words (strip s ++ (u.reverse.takeWhile Char.isWhitespace).reverse) :=
        (words_append_all_ws _ _ hws).symm
    _ = words u := by rw [← hdecomp]
    _ = words s := words_dropWhile_ws s

theorem words_joinSpace : ∀ ts : List Str, words (joinSpace ts) = (ts.map words).flatten
  | [] => by simp [joinSpace, words, wordsAux]
  | [t] => by simp [joinSpace]
  | t :: t' :: ts => by
    rw [joinSpace, words_append_ws (by decide : (' ').isWhitespace = true),
      words_joinSpace (t' :: ts)]
    simp

/-!
## Turn coalescing (`WhisperXProcessor.save_conversation`, v7process_audio.py 211-241)

A `Segment` models one entry of `result["segments"]`: a dict with keys
`start`, `end`, `text` and an optional `speaker`.  The speaker mapping is
`speaker_mapping.get(speaker, speaker)`.
-/

structure Segment where
  start : ℚ
  stop : ℚ
  text : Str
  speaker : Option Str
deriving DecidableEq, Repr

structure Turn where
  speaker : Str
  text : Str
deriving DecidableEq, Repr

/-- `speaker_mapping.get(speaker, speaker)`: mapped name, identity if unmapped. -/
def mapSpeaker (m : List (Str × Str)) (s : Str) : Str :=
  (m.lookup s).getD s

/-- `segment.get('speaker', 'Unknown')` followed by the mapping lookup. -/
def segSpeaker (m : List (Str × Str)) (seg : Segment) : Str :=
  mapSpeaker m (seg.speaker.getD ("Unknown".toList))

/-- Loop body state of `save_conversation`: remaining segments, the running
`current_speaker` (`none` = Python `None`), the accumulated `current_text`,
and the turns already appended to `conversation`. -/
def coalesceAux (m : List (Str × Str)) :
    List Segment → Option Str → Str → List Turn → List Turn
  | [], curSp, curTx, acc =>
    match curSp with
    | some sp => if curTx = [] then acc else acc ++ [⟨sp, strip curTx⟩]
    | none => acc
  | seg :: rest, curSp, curTx, acc =>
    let sp := segSpeaker m seg
    let tx := strip seg.text
    if curSp = some sp then
      coalesceAux m rest curSp (curTx ++ tx ++ [' ']) acc
    else
      match curSp with
      | some old =>
        coalesceAux m rest (some sp) (tx ++ [' ']) (acc ++ [⟨old, strip curTx⟩])
      | none => coalesceAux m rest (some sp) (tx ++ [' ']) acc

/-- `save_conversation`: the list of conversation turns written to
`<stem>_conversation.json`. -/
def coalesce (m : List (Str × Str)) (segs : List Segment) : List Turn :=
  coalesceAux m segs none [] []

/-- `save_text_format` (v7process_audio.py 243-251): the full text written to
`<stem>.txt` — one `"<speaker>: <text>\n"` line per segment. -/
def saveTextFormat (m : List (Str × Str)) (segs : List Segment) : Str :=
  (segs.map
    (fun seg => segSpeaker m seg ++ (": ".toList) ++ strip seg.text ++ ['\n'])).flatten

/-- The per-turn text file format claimed by the specification for
`<stem>.txt`: one `"<speaker>: <text>\n"` line per conversation turn. -/
def turnLinesSpec (m : List (Str × Str)) (segs : List Segment) : Str :=
  ((coalesce m segs).map
    (fun t => t.speaker ++ (": ".toList) ++ t.text ++ ['\n'])).flatten

/-- Word content of a list of texts, in order. -/
def wordsOfTexts (ts : List Str) : List Str := (ts.map words).flatten

theorem coalesceAux_cons (m : List (Str × Str)) (seg : Segment) (rest : List Segment)
    (curSp : Option Str) (curTx : Str) (acc : List Turn) :
    coalesceAux m (seg :: rest) curSp curTx acc =
      if curSp = some (segSpeaker m seg) then
        coalesceAux m rest curSp (curTx ++ strip seg.text ++ [' ']) acc
      else
        match curSp with
        | some old =>
          coalesceAux m rest (some (segSpeaker m seg)) (strip seg.text ++ [' '])
            (acc ++ [⟨old, strip curTx⟩])
        | none =>
          coalesceAux m rest (some (segSpeaker m seg)) (strip seg.text ++ [' ']) acc := rfl

theorem words_append_of_trailing (curTx t : Str)
    (h : curTx = [] ∨ ∃ u, curTx = u ++ [' ']) :
    words (curTx ++ t) = words curTx ++ words t := by
  rcases h with h | ⟨u, h⟩
  · subst h
    simp [words, wordsAux]
  · subst h
    have h1 : (u ++ [' ']) ++ t = u ++ ' ' :: t := by simp
    rw [h1, words_append_ws (by decide), words_append_all_ws u [' '] (by decide)]

theorem words_trailing_space (u : Str) : words (u ++ [' ']) = words u :=
  words_append_all_ws u [' '] (by decide)

theorem coalesceAux_words (m : List (Str × Str)) :
    ∀ (segs : List Segment) (curSp : Option Str) (curTx : Str) (acc : List Turn),
      (curSp = none → curTx = []) →
      (curTx = [] ∨ ∃ u, curTx = u ++ [' ']) →
      wordsOfTexts ((coalesceAux m segs curSp curTx acc).map Turn.text)
        = wordsOfTexts (acc.map Turn.text) ++ words curTx
            ++ wordsOfTexts (segs.map (fun s => strip s.text))
  | [], curSp, curTx, acc, hn, hshape => by
    cases curSp with
    | none =>
      rw [hn rfl]
      simp [coalesceAux, wordsOfTexts, words, wordsAux]
    | some sp =>
      by_cases hTx : curTx = []
      · subst hTx
        simp [coalesceAux, wordsOfTexts, words, wordsAux]
      · simp only [coalesceAux, if_neg hTx]
        simp [wordsOfTexts, words_strip]
  | seg :: rest, curSp, curTx, acc, hn, hshape => by
    rw [coalesceAux_cons]
    by_cases hsp : curSp = some (segSpeaker m seg)
    · rw [if_pos hsp]
      have hne : curSp ≠ none := by rw [hsp]; exact Option.some_ne_none _
      have ih := coalesceAux_words m rest curSp (curTx ++ strip seg.text ++ [' ']) acc
        (fun h => absurd h hne) (Or.inr ⟨curTx ++ strip seg.text, rfl⟩)
      rw [ih, words_trailing_space, words_append_of_trailing _ _ hshape]
      simp [wordsOfTexts]
    · rw [if_neg hsp]
      cases curSp with
      | none =>
        have ih := coalesceAux_words m rest (some (segSpeaker m seg))
          (strip seg.text ++ [' ']) acc (fun h => by cases h) (Or.inr ⟨strip seg.text, rfl⟩)
        rw [ih, words_trailing_space, hn rfl]
        simp [wordsOfTexts, words, wordsAux]
      | some old =>
        have ih := coalesceAux_words m rest (some (segSpeaker m seg))
          (strip seg.text ++ [' ']) (acc ++ [⟨old, strip curTx⟩])
          (fun h => by cases h) (Or.inr ⟨strip seg.text, rfl⟩)
        rw [ih, words_trailing_space]
        simp [wordsOfTexts, words_strip]

theorem coalesceAux_chain (m : List (Str × Str)) :
    ∀ (segs : List Segment) (curSp : Option Str) (curTx : Str) (acc : List Turn),
      (curSp = none → acc = []) →
      List.Chain' (fun a b : Str => a ≠ b) (acc.map Turn.speaker ++ curSp.toList) →
      List.Chain' (fun a b : Str => a ≠ b)
        ((coalesceAux m segs curSp curTx acc).map Turn.speaker)
  | [], curSp, curTx, acc, hn, hch => by
    cases curSp with
    | none => simpa [coalesceAux] using hch
    | some sp =>
      by_cases hTx : curTx = []
      · subst hTx
        simp only [coalesceAux, if_pos rfl]
        exact List.Chain'.left_of_append hch
      · simp only [coalesceAux, if_neg hTx]
        simpa using hch
  | seg :: rest, curSp, curTx, acc, hn, hch => by
    rw [coalesceAux_cons]
    by_cases hsp : curSp = some (segSpeaker m seg)
    · rw [if_pos hsp]
      exact coalesceAux_chain m rest curSp _ acc hn hch
    · rw [if_neg hsp]
      cases curSp with
      | none =>
        have hacc : acc = [] := hn rfl
        subst hacc
        exact coalesceAux_chain m rest (some (segSpeaker m seg)) _ []
          (fun h => rfl) (by simp)
      | some old =>
        have hne : old ≠ segSpeaker m seg := fun he => hsp (by rw [he])
        have h2 : List.Chain' (fun a b : Str => a ≠ b)
            ((acc.map Turn.speaker ++ [old]) ++ [segSpeaker m seg]) := by
          rw [List.chain'_append]
          refine ⟨by simpa using hch, List.chain'_singleton _, ?_⟩
          intro x hx y hy
          rw [List.getLast?_concat] at hx
          simp only [List.head?_cons, Option.mem_def, Option.some.injEq] at hx hy
          rw [← hx, ← hy]
          exact hne
        have hch' : List.Chain' (fun a b : Str => a ≠ b)
            ((acc ++ [(⟨old, strip curTx⟩ : Turn)]).map Turn.speaker
              ++ (some (segSpeaker m seg)).toList) := by simpa using h2
        exact coalesceAux_chain m rest (some (segSpeaker m seg)) (strip seg.text ++ [' '])
          (acc ++ [(⟨old, strip curTx⟩ : Turn)]) (fun h => by cases h) hch'

/-!
## Metadata resolution (`WhisperXProcessor.load_metadata`, v7process_audio.py 49-77)

The three candidate sidecar locations are examined in the listed order
inside a single `try` block; `location.exists()` failing skips the
candidate, a parsed record lacking `speaker_count` skips the candidate,
and any exception raised while opening or JSON-decoding a candidate
transfers control to the single `except` handler, which returns
`(None, "")`.
-/

/-- A sidecar metadata record as far as resolution inspects it: whether the
parsed JSON object has a `speaker_count` key, and its value. -/
structure Metadata where
  speaker_count : Option Nat
deriving DecidableEq, Repr

/-- State of one candidate sidecar location on disk. -/
inductive CandState
  | missing
  | readError
  | record (m : Metadata)
deriving DecidableEq, Repr

/-- A candidate location: its on-disk state and its description string. -/
abbrev Candidate := CandState × String

/-- The `for location, desc in metadata_locations:` loop.  `Except.error`
models an exception escaping to the enclosing handler. -/
def searchCandidates : List Candidate → Except Unit (Option (Metadata × String))
  | [] => Except.ok none
  | (st, loc) :: rest =>
    match st with
    | CandState.missing => searchCandidates rest
    | CandState.readError => Except.error ()
    | CandState.record m =>
      match m.speaker_count with
      | some _ => Except.ok (some (m, loc))
      | none => searchCandidates rest

/-- `load_metadata`: the loop wrapped in `try/except`, the handler returning
`(None, "")`. -/
def load_metadata (cands : List Candidate) : Option Metadata × String :=
  match searchCandidates cands with
  | Except.ok (some (m, loc)) => (some m, loc)
  | Except.ok none => (none, "")
  | Except.error _ => (none, "")

/-- Speaker-count resolution in `process_audio_file` (v7process_audio.py
86-98): use the record's `speaker_count` when a record was found, else the
default of 2. -/
def resolveSpeakerCount (cands : List Candidate) : Nat :=
  match (load_metadata cands).1 with
  | some m =>
    match m.speaker_count with
    | some n => n
    | none => 2
  | none => 2

/-- A candidate the loop steps over without returning and without raising:
the file is absent, or it parses but has no `speaker_count` key. -/
def isSkip (c : Candidate) : Bool :=
  match c.1 with
  | CandState.missing => true
  | CandState.readError => false
  | CandState.record m => m.speaker_count.isNone

/-- A candidate that yields a valid record: it parses and has
`speaker_count`. -/
def isValidCand (c : Candidate) : Bool :=
  match c.1 with
  | CandState.record m => m.speaker_count.isSome
  | _ => false

/-!
## Naming scheme (`WhisperXProcessor.process_all_files`, v7process_audio.py 276-289)
-/

/-- Python `str.split(sep)` for a single-character separator: splits at
every occurrence, keeping empty pieces. -/
def splitChar (sep : Char) : Str → List Str
  | [] => [[]]
  | c :: cs =>
    let r := splitChar sep cs
    if c = sep then [] :: r
    else
      match r with
      | [] => [[c]]
      | w :: ws => (c :: w) :: ws

structure EventIdentity where
  title : Str
  date : Str
deriving DecidableEq, Repr

/-- Event identity parsed from a recording stem: present exactly when the
stem splits into at least 6 underscore-delimited tokens, in which case the
title joins the tokens strictly between the first two and the last two, and
the date reformats the 8-digit next-to-last token as `YYYY-MM-DD`. -/
def parseEventIdentity (stem : Str) : Option EventIdentity :=
  let parts := splitChar '_' stem
  if parts.length ≥ 6 then
    let eventParts := ((parts.drop 2).dropLast).dropLast
    let eventName := List.intercalate ['_'] eventParts
    let dateStr := parts.getD (parts.length - 2) []
    let formattedDate :=
      dateStr.take 4 ++ ['-'] ++ (dateStr.drop 4).take 2 ++ ['-'] ++ dateStr.drop 6
    some ⟨eventName, formattedDate⟩
  else
    none

/-- The output directory name computed for a stem: `"<title>_<date>"` when
the event identity is present, otherwise the bare stem. -/
def dirNameOfStem (stem : Str) : Str :=
  match parseEventIdentity stem with
  | some e => e.title ++ ['_'] ++ e.date
  | none => stem

/-!
## Model lifecycle trace (`WhisperXProcessor.process_audio_file`, v7process_audio.py 100-160)

The straight-line `try` body is transliterated into an event trace: model
instantiations, `del` statements, and the stage executions between them,
in source order.
-/

inductive HeavyModel
  | asr
  | aligner
  | diarizer
deriving DecidableEq, Repr

inductive Stage
  | loadAudio
  | transcribe
  | align
  | diarize
  | assignSpeakers
  | saveResults
deriving DecidableEq, Repr

inductive PipeEvent
  | acquire (m : HeavyModel)
  | release (m : HeavyModel)
  | run (s : Stage)
deriving DecidableEq, Repr

/-- The v7 pipeline event trace, one entry per statement of interest:
`load_audio` (103), `load_model` (107), `model.transcribe` (115),
`load_align_model` (124), `align` (130), `del model` (140),
`del model_a` (141), `DiarizationPipeline` (147), diarization call (153),
`assign_word_speakers` (160), `save_results` (163). -/
def v7pipeline : List PipeEvent :=
  [ PipeEvent.run Stage.loadAudio,
    PipeEvent.acquire HeavyModel.asr,
    PipeEvent.run Stage.transcribe,
    PipeEvent.acquire HeavyModel.aligner,
    PipeEvent.run Stage.align,
    PipeEvent.release HeavyModel.asr,
    PipeEvent.release HeavyModel.aligner,
    PipeEvent.acquire HeavyModel.diarizer,
    PipeEvent.run Stage.diarize,
    PipeEvent.run Stage.assignSpeakers,
    PipeEvent.run Stage.saveResults ]

/-- Resident heavy-model set after one event. -/
def residentStep (s : List HeavyModel) : PipeEvent → List HeavyModel
  | PipeEvent.acquire m => s ++ [m]
  | PipeEvent.release m => s.erase m
  | PipeEvent.run _ => s

/-- Resident heavy-model set after a sequence of events. -/
def residentAfter (evs : List PipeEvent) : List HeavyModel :=
  evs.foldl residentStep []

/-!
## Batch driver (`WhisperXProcessor.process_all_files`, v7process_audio.py 272-299,
and `process_audio_file`, 100-171)
-/

/-- `process_audio_file`'s `try` body either completes (`Except.ok`) or
raises (`Except.error`); the handler turns the latter into `False`. -/
def processAudioFileResult (body : Except String Unit) : Bool :=
  match body with
  | Except.ok _ => true
  | Except.error _ => false

/-- What one iteration of the batch loop encounters: `setupRaises` models an
exception in the loop body outside `process_audio_file` (stem parsing,
`mkdir`), and `pipeline` the outcome of `process_audio_file`'s `try` body. -/
structure RecordingRun where
  setupRaises : Option String
  pipeline : Except String Unit

/-- Whether a recording counts as successfully processed. -/
def recOK (r : RecordingRun) : Bool :=
  r.setupRaises.isNone && processAudioFileResult r.pipeline

/-- One iteration of the `for i, wav_path in enumerate(wav_files, 1):` loop,
updating the `(successful, failed)` counters. -/
def runOne (s f : Nat) (r : RecordingRun) : Nat × Nat :=
  match r.setupRaises with
  | some _ => (s, f + 1)
  | none => if processAudioFileResult r.pipeline then (s + 1, f) else (s, f + 1)

/-- `process_all_files`: fold the loop over the discovered recordings,
starting from `successful = 0, failed = 0`. -/
def processAllFilesCounts (recs : List RecordingRun) : Nat × Nat :=
  recs.foldl (fun p r => runOne p.1 p.2 r) (0, 0)

/-!
## Helper lemmas
-/

theorem searchCandidates_skip_cons (c : Candidate) (h : isSkip c = true)
    (l : List Candidate) : searchCandidates (c :: l) = searchCandidates l := by
  obtain ⟨st, loc⟩ := c
  cases st with
  | missing => rfl
  | readError => simp [isSkip] at h
  | record m =>
    cases hm : m.speaker_count with
    | none => simp [searchCandidates, hm]
    | some n => simp [isSkip, hm] at h

theorem searchCandidates_skips (pre : List Candidate)
    (h : ∀ c ∈ pre, isSkip c = true) (l : List Candidate) :
    searchCandidates (pre ++ l) = searchCandidates l := by
  induction pre with
  | nil => rfl
  | cons c pre ih =>
    rw [List.cons_append, searchCandidates_skip_cons c (h c (List.mem_cons_self c pre)),
      ih (fun x hx => h x (List.mem_cons_of_mem c hx))]

theorem load_metadata_of_all_invalid :
    ∀ cands : List Candidate, (∀ c ∈ cands, isValidCand c = false) →
      load_metadata cands = (none, "")
  | [], _ => rfl
  | (st, loc) :: cands, h => by
    have hc := h (st, loc) (List.mem_cons_self _ _)
    cases st with
    | readError => rfl
    | missing =>
      have hm : load_metadata ((CandState.missing, loc) :: cands) = load_metadata cands := by
        unfold load_metadata
        rw [searchCandidates_skip_cons (CandState.missing, loc) rfl]
      rw [hm]
      exact load_metadata_of_all_invalid cands (fun x hx => h x (List.mem_cons_of_mem _ hx))
    | record m =>
      cases hm : m.speaker_count with
      | some n => simp [isValidCand, hm] at hc
      | none =>
        have hskip : isSkip (CandState.record m, loc) = true := by simp [isSkip, hm]
        have heq : load_metadata ((CandState.record m, loc) :: cands)
            = load_metadata cands := by
          unfold load_metadata
          rw [searchCandidates_skip_cons _ hskip]
        rw [heq]
        exact load_metadata_of_all_invalid cands (fun x hx => h x (List.mem_cons_of_mem _ hx))

theorem splitChar_ne_nil (sep : Char) : ∀ s : Str, splitChar sep s ≠ []
  | [] => by simp [splitChar]
  | c :: cs => by
    have h := splitChar_ne_nil sep cs
    by_cases hc : c = sep
    · simp [splitChar, hc]
    · simp only [splitChar, if_neg hc]
      cases hrec : splitChar sep cs with
      | nil => exact absurd hrec h
      | cons w ws => simp

theorem splitChar_append_no_sep (sep : Char) :
    ∀ x y : Str, sep ∉ x → splitChar sep (x ++ sep :: y) = x :: splitChar sep y
  | [], y, _ => by simp [splitChar]
  | c :: x, y, hx => by
    have hc : ¬ c = sep := fun h => hx (h ▸ List.mem_cons_self c x)
    have ih := splitChar_append_no_sep sep x y (fun h => hx (List.mem_cons_of_mem c h))
    simp only [List.cons_append, splitChar, if_neg hc, List.append_eq, ih]

/-- Split a text into its newline-terminated lines: the pieces between
newline characters, without the final piece after the last newline. -/
def linesOf (s : Str) : List Str := (splitChar '\n' s).dropLast

theorem linesOf_flatten :
    ∀ ls : List Str, (∀ l ∈ ls, ('\n' : Char) ∉ l) →
      linesOf ((ls.map (fun l => l ++ ['\n'])).flatten) = ls
  | [], _ => by simp [linesOf, splitChar]
  | l :: ls, h => by
    have hl : ('\n' : Char) ∉ l := h l (List.mem_cons_self l ls)
    have ih := linesOf_flatten ls (fun x hx => h x (List.mem_cons_of_mem l hx))
    have hflat : ((l :: ls).map (fun l => l ++ ['\n'])).flatten
        = l ++ '\n' :: (ls.map (fun l => l ++ ['\n'])).flatten := by
      simp
    rw [linesOf, hflat, splitChar_append_no_sep '\n' l _ hl]
    rw [List.dropLast_cons_of_ne_nil (splitChar_ne_nil '\n' _)]
    rw [← linesOf, ih]

theorem mem_of_mem_dropWhile_ws {c : Char} {l : Str}
    (h : c ∈ l.dropWhile Char.isWhitespace) : c ∈ l := by
  have hd := List.takeWhile_append_dropWhile (p := Char.isWhitespace) (l := l)
  rw [← hd]
  exact List.mem_append_right _ h

theorem mem_of_mem_strip {c : Char} {s : Str} (h : c ∈ strip s) : c ∈ s := by
  unfold strip at h
  rw [List.mem_reverse] at h
  have h1 := mem_of_mem_dropWhile_ws h
  rw [List.mem_reverse] at h1
  exact mem_of_mem_dropWhile_ws h1

theorem countP_add_countP_not (p : α → Bool) (l : List α) :
    l.countP p + l.countP (fun a => ! p a) = l.length := by
  induction l with
  | nil => simp
  | cons a l ih =>
    by_cases h : p a = true <;>
      simp [List.countP_cons, h, ← ih] <;> omega

theorem processAllFiles_go :
    ∀ (recs : List RecordingRun) (s f : Nat),
      recs.foldl (fun p r => runOne p.1 p.2 r) (s, f)
        = (s + recs.countP recOK, f + recs.countP (fun r => ! recOK r))
  | [], s, f => by simp
  | r :: recs, s, f => by
    rw [List.foldl_cons, List.countP_cons, List.countP_cons]
    cases hsr : r.setupRaises with
    | some e =>
      rw [show runOne s f r = (s, f + 1) by simp [runOne, hsr]]
      rw [processAllFiles_go recs s (f + 1)]
      have hok : recOK r = false := by simp [recOK, hsr]
      simp [hok]
      omega
    | none =>
      cases hp : r.pipeline with
      | ok u =>
        rw [show runOne s f r = (s + 1, f) by simp [runOne, hsr, hp, processAudioFileResult]]
        rw [processAllFiles_go recs (s + 1) f]
        have hok : recOK r = true := by simp [recOK, hsr, hp, processAudioFileResult]
        simp [hok]
        omega
      | error e =>
        rw [show runOne s f r = (s, f + 1) by simp [runOne, hsr, hp, processAudioFileResult]]
        rw [processAllFiles_go recs s (f + 1)]
        have hok : recOK r = false := by simp [recOK, hsr, hp, processAudioFileResult]
        simp [hok]
        omega

/-!
## Concrete inputs used by the claims
-/

/-- Candidate list with a read/parse error at the parent-directory location
and a valid record at the workspace root. -/
def cexCandidates : List Candidate :=
  [ (CandState.readError, "parent directory"),
    (CandState.record ⟨some 3⟩, "workspace root"),
    (CandState.missing, "output directory") ]

/-- The spec scenario's stem: only 5 underscore-delimited tokens. -/
def stemFive : Str := "AO_REC_WeeklySync_20240115_093000".toList

/-- A stem with 6 underscore-delimited tokens (two-token title). -/
def stemSix : Str := "AO_REC_Weekly_Sync_20240115_093000".toList

/-- The spec scenario's segment list. -/
def segsExample : List Segment :=
  [ ⟨0, 1, "Hi".toList, some ("S1".toList)⟩,
    ⟨1, 2, "there".toList, some ("S1".toList)⟩,
    ⟨2, 3, "Bye".toList, some ("S2".toList)⟩ ]

/-- The spec scenario's speaker map. -/
def mapExample : List (Str × Str) :=
  [ ("S1".toList, "Alice".toList), ("S2".toList, "Bob".toList) ]

/-!
## The claims
-/

/-- C1 counterexample: a read/parse error on the first candidate does NOT
continue the search — `load_metadata` returns absent even though the very
next candidate holds a valid record, while running the search on the
remaining candidates alone would find that record. -/
theorem C1_counterexample :
    load_metadata cexCandidates = (none, "") ∧
    load_metadata (cexCandidates.drop 1) = (some ⟨some 3⟩, "workspace root") ∧
    load_metadata cexCandidates ≠ load_metadata (cexCandidates.drop 1) := by
  decide

/-- C1 (amended): an I/O or JSON parse error while reading a candidate is
swallowed with respect to the caller — resolution returns absent instead of
propagating the exception — but it aborts the search, so the remaining
candidates are not examined; the search continues only past candidates that
are missing or that parse but lack `speaker_count`, and exhausting such
candidates also yields absent. -/
theorem C1_error_aborts_search (pre post : List Candidate) (loc : String)
    (hpre : ∀ c ∈ pre, isSkip c = true) :
    load_metadata (pre ++ (CandState.readError, loc) :: post) = (none, "") ∧
    load_metadata pre = (none, "") := by
  constructor
  · unfold load_metadata
    rw [searchCandidates_skips pre hpre]
    rfl
  · unfold load_metadata
    have h : searchCandidates pre = searchCandidates [] := by
      have h0 := searchCandidates_skips pre hpre []
      rwa [List.append_nil] at h0
    rw [h]
    rfl

/-- C1 witness: the amended theorem at a concrete candidate list. -/
theorem C1_error_aborts_search_witness :
    load_metadata
        ([(CandState.missing, "parent directory"),
          (CandState.record ⟨none⟩, "workspace root")]
          ++ (CandState.readError, "output directory")
            :: [(CandState.record ⟨some 5⟩, "extra")]) = (none, "") ∧
    load_metadata
        [(CandState.missing, "parent directory"),
         (CandState.record ⟨none⟩, "workspace root")] = (none, "") :=
  C1_error_aborts_search _ _ _ (by decide)

/-- C2 counterexample: in the v7 pipeline trace the event at index 4 is the
Align stage, and at that point both the ASR model and the alignment model
are resident — the ASR model was not released before Align began, and two
heavyweight model instances are resident simultaneously. -/
theorem C2_counterexample :
    v7pipeline.getD 4 (PipeEvent.run Stage.loadAudio) = PipeEvent.run Stage.align ∧
    residentAfter (v7pipeline.take 4) = [HeavyModel.asr, HeavyModel.aligner] ∧
    (residentAfter (v7pipeline.take 4)).length = 2 := by
  decide

/-- C2 (amended): the ASR model instance is released together with the
alignment model only after the Align stage completes and before diarization
begins; during the Align stage the ASR and alignment models are resident
simultaneously, so up to two heavy model instances coexist, and diarization
runs with only the diarization model resident.  The full resident-set
evolution of the trace is enumerated. -/
theorem C2_model_lifecycle :
    (List.range (v7pipeline.length + 1)).map (fun k => residentAfter (v7pipeline.take k))
      = [[], [], [HeavyModel.asr], [HeavyModel.asr],
         [HeavyModel.asr, HeavyModel.aligner], [HeavyModel.asr, HeavyModel.aligner],
         [HeavyModel.aligner], [], [HeavyModel.diarizer], [HeavyModel.diarizer],
         [HeavyModel.diarizer], [HeavyModel.diarizer]] := by
  decide

/-- C3 counterexample: the stem `AO_REC_WeeklySync_20240115_093000` has only
5 underscore-delimited tokens, so the code takes the fallback branch: no
event identity is parsed and the output directory name is the bare stem,
not `WeeklySync_2024-01-15`. -/
theorem C3_counterexample :
    parseEventIdentity stemFive = none ∧
    dirNameOfStem stemFive = stemFive ∧
    dirNameOfStem stemFive ≠ "WeeklySync_2024-01-15".toList := by
  decide

/-- C3 (amended): for the stem `AO_REC_WeeklySync_20240115_093000`, which
splits into only 5 underscore-delimited tokens, event-identity parsing
yields absent and the computed output directory name is the stem itself;
for a 6-token stem such as `AO_REC_Weekly_Sync_20240115_093000`,
event-identity parsing yields title `Weekly_Sync` and date `2024-01-15`,
and the computed output directory name is `Weekly_Sync_2024-01-15`. -/
theorem C3_naming_scheme :
    (splitChar '_' stemFive).length = 5 ∧
    parseEventIdentity stemFive = none ∧
    dirNameOfStem stemFive = stemFive ∧
    parseEventIdentity stemSix = some ⟨"Weekly_Sync".toList, "2024-01-15".toList⟩ ∧
    dirNameOfStem stemSix = "Weekly_Sync_2024-01-15".toList := by
  decide

/-- C4: for every ordered list of segments and every speaker map, the
space-joined concatenation of all coalesced turns' texts equals the
space-joined concatenation of all segments' trimmed texts in input order,
modulo whitespace normalization — the word sequences agree exactly, so no
words are dropped or duplicated. -/
theorem C4_turn_text_roundtrip (m : List (Str × Str)) (segs : List Segment) :
    words (joinSpace ((coalesce m segs).map Turn.text))
      = words (joinSpace (segs.map (fun s => strip s.text))) := by
  have h := coalesceAux_words m segs none [] [] (fun _ => rfl) (Or.inl rfl)
  rw [words_joinSpace, words_joinSpace]
  unfold coalesce
  unfold wordsOfTexts at h
  simpa [words, wordsAux] using h

/-- C5: turn coalescing applied to the segments
`[{0.0,1.0,"Hi","S1"},{1.0,2.0,"there","S1"},{2.0,3.0,"Bye","S2"}]` with
speaker map `{S1: "Alice", S2: "Bob"}` produces exactly the turns
`[{Alice, "Hi there"}, {Bob, "Bye"}]`: equal-mapped-speaker runs merge with
space-joined trimmed texts, and a speaker change starts a new turn. -/
theorem C5_concrete_coalesce :
    coalesce mapExample segsExample
      = [⟨"Alice".toList, "Hi there".toList⟩, ⟨"Bob".toList, "Bye".toList⟩] := by
  decide

/-- C6 counterexample: on the example segments the `<stem>.txt` content has
one line per segment — three lines, a `\n` count of 3 — while the
conversation has only two turns, so the content differs from the per-turn
format the claim describes. -/
theorem C6_counterexample :
    saveTextFormat mapExample segsExample ≠ turnLinesSpec mapExample segsExample ∧
    saveTextFormat mapExample segsExample
      = "Alice: Hi\nAlice: there\nBob: Bye\n".toList ∧
    (saveTextFormat mapExample segsExample).count '\n' = 3 ∧
    (coalesce mapExample segsExample).length = 2 ∧
    segsExample.length = 3 := by
  decide

/-- C6 (amended): the plain-text artifact `<stem>.txt` contains exactly one
line per segment (not per turn), each formatted `"<speaker>: <text>\n"`
with the mapped speaker and trimmed text, in segment order: provided no
speaker name or segment text contains a newline, splitting the written
content at newlines recovers exactly the per-segment lines. -/
theorem C6_one_line_per_segment (m : List (Str × Str)) (segs : List Segment)
    (h : ∀ seg ∈ segs, ('\n' : Char) ∉ segSpeaker m seg ∧ ('\n' : Char) ∉ seg.text) :
    linesOf (saveTextFormat m segs)
      = segs.map (fun seg => segSpeaker m seg ++ (": ".toList) ++ strip seg.text) := by
  unfold saveTextFormat
  have hmap : (segs.map
      (fun seg => segSpeaker m seg ++ (": ".toList) ++ strip seg.text ++ ['\n']))
      = (segs.map (fun seg => segSpeaker m seg ++ (": ".toList) ++ strip seg.text)).map
          (fun l => l ++ ['\n']) := by
    rw [List.map_map]
    apply List.map_congr_left
    intro seg _
    simp [List.append_assoc]
  rw [hmap]
  apply linesOf_flatten
  intro l hl
  rw [List.mem_map] at hl
  obtain ⟨seg, hseg, rfl⟩ := hl
  intro hmem
  rcases List.mem_append.mp hmem with hmem2 | hstrip
  · rcases List.mem_append.mp hmem2 with hsp | hcolon
    · exact (h seg hseg).1 hsp
    · simp at hcolon
  · exact (h seg hseg).2 (mem_of_mem_strip hstrip)

/-- C6 witness: the amended theorem at the example segments and map. -/
theorem C6_one_line_per_segment_witness :
    linesOf (saveTextFormat mapExample segsExample)
      = segsExample.map
          (fun seg => segSpeaker mapExample seg ++ (": ".toList) ++ strip seg.text) :=
  C6_one_line_per_segment mapExample segsExample (by decide)

/-- C7: when valid records (with `speaker_count`) sit at both the
parent-directory and the workspace-root locations, resolution returns the
parent-directory record; the result does not depend on the later
candidates, which are never consulted. -/
theorem C7_parent_directory_wins (m1 m2 : Metadata) (c3 : Candidate)
    (h1 : m1.speaker_count.isSome = true) (_h2 : m2.speaker_count.isSome = true) :
    load_metadata
        [(CandState.record m1, "parent directory"),
         (CandState.record m2, "workspace root"), c3]
      = (some m1, "parent directory") := by
  obtain ⟨n, hn⟩ := Option.isSome_iff_exists.mp h1
  simp [load_metadata, searchCandidates, hn]

/-- C7 witness: concrete records with speaker counts 4 and 2. -/
theorem C7_parent_directory_wins_witness :
    load_metadata
        [(CandState.record ⟨some 4⟩, "parent directory"),
         (CandState.record ⟨some 2⟩, "workspace root"),
         (CandState.missing, "output directory")]
      = (some ⟨some 4⟩, "parent directory") :=
  C7_parent_directory_wins ⟨some 4⟩ ⟨some 2⟩ (CandState.missing, "output directory")
    (by decide) (by decide)

/-- C8: when no candidate yields a valid metadata record, resolution
returns absent and the speaker count used for diarization is the default
of 2. -/
theorem C8_default_speaker_count (cands : List Candidate)
    (h : ∀ c ∈ cands, isValidCand c = false) :
    load_metadata cands = (none, "") ∧ resolveSpeakerCount cands = 2 := by
  have h1 := load_metadata_of_all_invalid cands h
  refine ⟨h1, ?_⟩
  unfold resolveSpeakerCount
  rw [h1]

/-- C8 witness: all three locations missing or lacking `speaker_count`. -/
theorem C8_default_speaker_count_witness :
    load_metadata
        [(CandState.missing, "parent directory"),
         (CandState.record ⟨none⟩, "workspace root"),
         (CandState.missing, "output directory")] = (none, "") ∧
    resolveSpeakerCount
        [(CandState.missing, "parent directory"),
         (CandState.record ⟨none⟩, "workspace root"),
         (CandState.missing, "output directory")] = 2 :=
  C8_default_speaker_count _ (by decide)

/-- C9: for every batch, each recording's failure — whether an exception in
the loop body or a pipeline failure converted to a `False` result — only
increments the failed counter: the final counters are exactly the counts of
succeeding and non-succeeding recordings, and they sum to the batch length,
so every recording is attempted and classified. -/
theorem C9_batch_failure_isolation (recs : List RecordingRun) :
    processAllFilesCounts recs
        = (recs.countP recOK, recs.countP (fun r => ! recOK r)) ∧
    (processAllFilesCounts recs).1 + (processAllFilesCounts recs).2 = recs.length := by
  have h := processAllFiles_go recs 0 0
  have h0 : processAllFilesCounts recs
      = (recs.countP recOK, recs.countP (fun r => ! recOK r)) := by
    unfold processAllFilesCounts
    simpa using h
  refine ⟨h0, ?_⟩
  rw [h0]
  exact countP_add_countP_not recOK recs

/-- C10: the turn list produced by coalescing never contains two
consecutive turns with the same speaker name: every adjacent pair of
emitted turns has distinct speakers. -/
theorem C10_no_adjacent_equal_speakers (m : List (Str × Str)) (segs : List Segment) :
    List.Chain' (fun a b : Turn => a.speaker ≠ b.speaker) (coalesce m segs) := by
  have h : List.Chain' (fun a b : Str => a ≠ b) ((coalesce m segs).map Turn.speaker) :=
    coalesceAux_chain m segs none [] [] (fun _ => rfl) (by simp)
  rwa [List.chain'_map] at h
